import Mathlib

/-!
# Verification of `wordle_stats.py`

A shallow embedding of the core pipeline of `wordle_stats.py`:

* `parse_html_files` — the record extractor (regex search for
  `Wordle ([\d,]+) ([X\d])/6`, sticky author attribution, date parsing,
  `via @handle` normalization);
* `calculate_statistics` — the per-(player, year) aggregator;
* `calculate_head_to_head` — the per-year pairwise aggregator;
* the division guards of `print_summary` and the `__main__` report.

Python exceptions (`int("")`, invalid `datetime`) are modelled with
`Except String` / `Option`; Python dicts and `defaultdict`s are modelled
as total functions together with an insertion-ordered key list.

The regex patterns used by the source have the special property that each
greedy character class is followed by a literal that is outside the class,
so a maximal-munch matcher without backtracking has exactly the semantics
of Python `re` on these patterns; the matchers below exploit this.
-/

namespace WordleStats

/-- Python `\d` (ASCII): a decimal digit (code points 48–57). -/
def isDigitCh (c : Char) : Bool := 48 ≤ c.toNat && c.toNat ≤ 57

/-- Python `\s` (ASCII part): the whitespace characters recognised by
`re` and `str.strip`. -/
def isPySpace (c : Char) : Bool :=
  c = ' ' || c = '\t' || c = '\n' || c = '\x0d' || c = '\x0b' || c = '\x0c'

/-- Python `\w` (ASCII part): letters, digits and underscore. -/
def isWordCh (c : Char) : Bool := c.isAlphanum || c = '_'

/-- Maximal munch: split a list into the longest leading run satisfying
`p` and the remainder. -/
def munch (p : Char → Bool) : List Char → List Char × List Char
  | [] => ([], [])
  | c :: cs =>
    if p c then
      let r := munch p cs
      (c :: r.1, r.2)
    else ([], c :: cs)

/-- Match a literal: returns the remainder when `lit` heads the input. -/
def dropLit : List Char → List Char → Option (List Char)
  | [], rest => some rest
  | _ :: _, [] => none
  | c :: cs, d :: ds => if c = d then dropLit cs ds else none

/-- One attempted match of `Wordle ([\d,]+) ([X\d])/6` anchored at the head
of the input, returning (group 1, group 2).  Since the greedy class
`[\d,]` excludes the following literal space, maximal munch is exact. -/
def matchWordleAt (t : List Char) : Option (List Char × Char) :=
  match dropLit "Wordle ".toList t with
  | none => none
  | some r1 =>
    match munch (fun c => isDigitCh c || c = ',') r1 with
    | ([], _) => none
    | (c0 :: cs, ' ' :: c :: rest) =>
      if c = 'X' || isDigitCh c then
        match dropLit "/6".toList rest with
        | some _ => some (c0 :: cs, c)
        | none => none
      else none
    | (_ :: _, _) => none

/-- Python `re.search` for the Wordle pattern: leftmost match wins. -/
def searchWordle : List Char → Option (List Char × Char)
  | [] => none
  | c :: cs =>
    match matchWordleAt (c :: cs) with
    | some res => some res
    | none => searchWordle cs

/-- The source's `puzzle_num_str.replace(",", "")`. -/
def stripCommas (g : List Char) : List Char := g.filter (fun c => decide (c ≠ ','))

/-- Numeric value of a digit string (the value `int` returns on it). -/
def digitsToNat (l : List Char) : Nat := l.foldl (fun acc c => acc * 10 + (c.toNat - 48)) 0

/-- The source's `int(puzzle_num_str.replace(",", ""))`: Python `int` raises
`ValueError` on the empty string, modelled by `none`. -/
def parsePuzzleNum (g : List Char) : Option Nat :=
  let d := stripCommas g
  if d = [] then none else some (digitsToNat d)

/-- One attempted match of `\s+via\s+@\w+` anchored at the head of the
input, returning the remainder after the match.  Again each greedy class
is followed by a literal outside the class, so no backtracking is needed. -/
def matchViaAt (t : List Char) : Option (List Char) :=
  let m1 := munch isPySpace t
  if m1.1 = [] then none
  else
    match dropLit "via".toList m1.2 with
    | none => none
    | some r2 =>
      let m2 := munch isPySpace r2
      if m2.1 = [] then none
      else
        match m2.2 with
        | '@' :: r4 =>
          let m3 := munch isWordCh r4
          if m3.1 = [] then none else some m3.2
        | _ => none

/-- Python `re.sub(r"\s+via\s+@\w+", "", s)`: delete every (non-overlapping,
leftmost-first) occurrence.  Each successful match consumes at least six
characters, so recursion on a `t.length` fuel always suffices; the
`fuel = 0` fallback is unreachable from `subVia`. -/
def subViaAux : Nat → List Char → List Char
  | 0, t => t
  | _ + 1, [] => []
  | fuel + 1, c :: cs =>
    match matchViaAt (c :: cs) with
    | some rest => subViaAux fuel rest
    | none => c :: subViaAux fuel cs

def subVia (t : List Char) : List Char := subViaAux t.length t

/-- Python `str.strip()`. -/
def pyStrip (l : List Char) : List Char :=
  ((l.dropWhile isPySpace).reverse.dropWhile isPySpace).reverse

/-- The source's `from_name_div.get_text().strip()` followed by
`re.sub(r"\s+via\s+@\w+", "", ...)`. -/
def normName (s : String) : String := (subVia (pyStrip s.toList)).asString

/-- Python `re.match(r"(\d{2})\.(\d{2})\.(\d{4})", date_str)`, returning
(day, month, year). -/
def matchDate : List Char → Option (Nat × Nat × Nat)
  | d1 :: d2 :: '.' :: m1 :: m2 :: '.' :: y1 :: y2 :: y3 :: y4 :: _ =>
    if isDigitCh d1 && isDigitCh d2 && isDigitCh m1 && isDigitCh m2 &&
       isDigitCh y1 && isDigitCh y2 && isDigitCh y3 && isDigitCh y4 then
      some (digitsToNat [d1, d2], digitsToNat [m1, m2], digitsToNat [y1, y2, y3, y4])
    else none
  | _ => none

/-- Gregorian leap year, as used by `datetime`. -/
def isLeapYear (y : Nat) : Bool := y % 4 = 0 && (y % 100 ≠ 0 || y % 400 = 0)

def daysInMonth (y m : Nat) : Nat :=
  if m = 2 then (if isLeapYear y then 29 else 28)
  else if m = 4 || m = 6 || m = 9 || m = 11 then 30
  else 31

/-- The range check performed by `datetime(year, month, day)`
(`datetime.MINYEAR = 1`, `datetime.MAXYEAR = 9999`). -/
def isValidDate (y m d : Nat) : Bool :=
  1 ≤ y && y ≤ 9999 && 1 ≤ m && m ≤ 12 && 1 ≤ d && d ≤ daysInMonth y m

/-- The date part of a `datetime` object. -/
structure PyDate where
  year : Nat
  month : Nat
  day : Nat
deriving DecidableEq, Repr

/-- One message block of the Telegram HTML export, reduced to the three
pieces the source reads: `div.from_name` text, `div.text` text, and the
`title` attribute of `div.details` (each absent when the div / attribute
is missing). -/
structure Msg where
  from_name : Option String
  text : Option String
  title : Option String
deriving DecidableEq, Repr

/-- One result dict appended to `results` by `parse_html_files`. -/
structure ResultRec where
  player : String
  puzzle_num : Nat
  attempts : Char
  date : PyDate
  year : Nat
deriving DecidableEq, Repr

/-- Python truthiness of the `current_player` variable (`None` and `""`
are falsy). -/
def truthy : Option String → Bool
  | none => false
  | some s => s ≠ ""

/-- The `if from_name_div:` branch: a block carrying an author label
replaces the current author with its normalized text; other blocks leave
it unchanged. -/
def updAuthor (cp : Option String) (m : Msg) : Option String :=
  match m.from_name with
  | some nm => some (normName nm)
  | none => cp

/-- The record (or skip, or raised exception) produced by the body of the
message loop for one block, given the current author `cp` (already
updated by this block's own label).  `Except.error` models the
uncaught `ValueError`s of `int(...)` and `datetime(...)`. -/
def msgRecord (cp : Option String) (m : Msg) : Except String (Option ResultRec) :=
  match m.text with
  | none => .ok none
  | some txt =>
    match searchWordle txt.toList with
    | none => .ok none
    | some (g, a) =>
      match cp with
      | none => .ok none
      | some p =>
        if p = "" then .ok none
        else
          match parsePuzzleNum g with
          | none => .error "ValueError: invalid literal for int"
          | some n =>
            match m.title with
            | none => .ok none
            | some ttl =>
              if ttl = "" then .ok none
              else
                match matchDate ttl.toList with
                | none => .ok none
                | some (dy, mo, yr) =>
                  if isValidDate yr mo dy then
                    .ok (some ⟨p, n, a, ⟨yr, mo, dy⟩, yr⟩)
                  else .error "ValueError: day is out of range for month"

/-- The message loop of `parse_html_files`, threading the sticky
`current_player` state and the accumulated `results` list. -/
def parseDocAux : Option String → List ResultRec → List Msg → Except String (List ResultRec)
  | _, acc, [] => .ok acc
  | cp, acc, m :: ms =>
    match msgRecord (updAuthor cp m) m with
    | .error e => .error e
    | .ok none => parseDocAux (updAuthor cp m) acc ms
    | .ok (some r) => parseDocAux (updAuthor cp m) (acc ++ [r]) ms

/-- Processing of one document, starting with `current_player = None`. -/
def parseDoc (msgs : List Msg) : Except String (List ResultRec) :=
  parseDocAux none [] msgs

/-- The file loop: documents in (already sorted) order, one shared
`results` accumulator, `current_player` reset per document. -/
def parseFilesAux : List ResultRec → List (List Msg) → Except String (List ResultRec)
  | acc, [] => .ok acc
  | acc, d :: ds =>
    match parseDocAux none acc d with
    | .error e => .error e
    | .ok acc' => parseFilesAux acc' ds

/-- The source's `parse_html_files`, over the block structure of the selected
documents. -/
def parse_html_files (docs : List (List Msg)) : Except String (List ResultRec) :=
  parseFilesAux [] docs

/-! ## `calculate_statistics` -/

/-- One per-(player, year) bucket of `stats`.  `attempts_dist` is the
inner `defaultdict(int)`, modelled as a total function that is zero
outside the touched keys. -/
@[ext]
structure PYStats where
  total : Nat
  wins : Nat
  losses : Nat
  attempts_dist : Nat → Nat
  total_attempts : Nat

/-- The default bucket produced by the nested `defaultdict`. -/
def initPY : PYStats := ⟨0, 0, 0, fun _ => 0, 0⟩

/-- The nested `stats` dict, modelled as a total function with the
`defaultdict` default. -/
abbrev StatsMap := String → Nat → PYStats

/-- Python `int` on the one-character `attempts` string: its value for a
digit, a raised `ValueError` (`none`) otherwise. -/
def pyIntChar (c : Char) : Option Nat :=
  if isDigitCh c then some (c.toNat - 48) else none

/-- Point update of a bucket of the nested dict. -/
def updPY (m : StatsMap) (p : String) (y : Nat) (g : PYStats → PYStats) : StatsMap :=
  fun p' y' => if p' = p ∧ y' = y then g (m p' y') else m p' y'

/-- The `attempts == "X"` branch of the loop body. -/
def lossMod (s : PYStats) : PYStats :=
  { s with total := s.total + 1, losses := s.losses + 1 }

/-- The winning branch of the loop body, for attempts value `a`. -/
def winMod (a : Nat) (s : PYStats) : PYStats :=
  { s with
    total := s.total + 1
    wins := s.wins + 1
    attempts_dist := fun n => if n = a then s.attempts_dist n + 1 else s.attempts_dist n
    total_attempts := s.total_attempts + a }

/-- One iteration of the `calculate_statistics` loop; `none` models the
`ValueError` of `int(attempts)` on a malformed record. -/
def statStep (m : StatsMap) (r : ResultRec) : Option StatsMap :=
  if r.attempts = 'X' then some (updPY m r.player r.year lossMod)
  else
    match pyIntChar r.attempts with
    | none => none
    | some a => some (updPY m r.player r.year (winMod a))

def calcStats (m : StatsMap) : List ResultRec → Option StatsMap
  | [] => some m
  | r :: l => (statStep m r).bind (fun m' => calcStats m' l)

/-- The source's `calculate_statistics`. -/
def calculate_statistics (l : List ResultRec) : Option StatsMap :=
  calcStats (fun _ _ => initPY) l

/-- The sum of the values of `attempts_dist`.  Every key the source can
touch is the value of a decimal digit, hence below 10, so the range
covers all non-zero entries. -/
def distSum (s : PYStats) : Nat :=
  Finset.sum (Finset.range 10) (fun n => s.attempts_dist n)

/-! ## `calculate_head_to_head` -/

/-- The per-year head-to-head counters (one `h2h_stats` value). -/
structure H2H where
  hugo_wins : Nat
  sylvain_wins : Nat
  ties : Nat
deriving DecidableEq, Repr

/-- The intermediate `puzzles[year][puzzle_num][player]` mapping,
modelled as a total function to `Option Nat`. -/
abbrev PMap := Nat × Nat → String → Option Nat

/-- The sentinel `X` is mapped to 7 "for comparison purposes", a digit to its value,
anything else raises `ValueError` in `int(attempts)`. -/
def attemptsValOf (c : Char) : Option Nat :=
  if c = 'X' then some 7 else pyIntChar c

/-- One iteration of the grouping loop: last write wins for a repeated
(year, puzzle, player) triple; the (year, puzzle) key is recorded in
dict insertion order. -/
def pmStep (st : PMap × List (Nat × Nat)) (r : ResultRec) :
    Option (PMap × List (Nat × Nat)) :=
  match attemptsValOf r.attempts with
  | none => none
  | some v =>
    some
      (fun k pl => if k = (r.year, r.puzzle_num) ∧ pl = r.player then some v else st.1 k pl,
       if (r.year, r.puzzle_num) ∈ st.2 then st.2 else st.2 ++ [(r.year, r.puzzle_num)])

def buildPuzzles (st : PMap × List (Nat × Nat)) : List ResultRec → Option (PMap × List (Nat × Nat))
  | [] => some st
  | r :: l => (pmStep st r).bind (fun st' => buildPuzzles st' l)

/-- The tally for one (year, puzzle) entry: skipped unless both
designated players are present, otherwise strictly fewer attempts wins
and equality is a tie.  The second component collects the years whose
`h2h_stats` entry exists (received at least one increment). -/
def tallyOne (f : PMap) (st : (Nat → H2H) × List Nat) (k : Nat × Nat) :
    (Nat → H2H) × List Nat :=
  match f k "Hugo Ledoux", f k "Sylvain Roy" with
  | some hv, some sv =>
    (fun y =>
      if y = k.1 then
        if hv < sv then { st.1 y with hugo_wins := (st.1 y).hugo_wins + 1 }
        else if sv < hv then { st.1 y with sylvain_wins := (st.1 y).sylvain_wins + 1 }
        else { st.1 y with ties := (st.1 y).ties + 1 }
      else st.1 y,
     if k.1 ∈ st.2 then st.2 else st.2 ++ [k.1])
  | _, _ => st

/-- The source's `calculate_head_to_head`: the per-year counter map (with the
`defaultdict` default `⟨0, 0, 0⟩`) together with the list of years that
have an entry.  The source iterates the nested dicts
(`for year, year_puzzles in puzzles.items(): for puzzle_num, players in ...`);
here the same (year, puzzle) entries are visited once each in flat
insertion order — each entry adds 1 to a single counter of its own year,
so the resulting counter map is identical. -/
def calculate_head_to_head (l : List ResultRec) : Option ((Nat → H2H) × List Nat) :=
  (buildPuzzles (fun _ _ => none, []) l).map
    (fun st => st.2.foldl (tallyOne st.1) (fun _ => ⟨0, 0, 0⟩, []))

/-- Both designated players have a value for entry `k`. -/
def bothAt (f : PMap) (k : Nat × Nat) : Bool :=
  (f k "Hugo Ledoux").isSome && (f k "Sylvain Roy").isSome

/-- Entry `k` is a win for the first designated player. -/
def hugoAt (f : PMap) (k : Nat × Nat) : Bool :=
  match f k "Hugo Ledoux", f k "Sylvain Roy" with
  | some hv, some sv => decide (hv < sv)
  | _, _ => false

/-- Entry `k` is a win for the second designated player. -/
def sylvainAt (f : PMap) (k : Nat × Nat) : Bool :=
  match f k "Hugo Ledoux", f k "Sylvain Roy" with
  | some hv, some sv => decide (sv < hv)
  | _, _ => false

/-- Entry `k` is a tie. -/
def tieAt (f : PMap) (k : Nat × Nat) : Bool :=
  match f k "Hugo Ledoux", f k "Sylvain Roy" with
  | some hv, some sv => decide (¬ hv < sv ∧ ¬ sv < hv)
  | _, _ => false

/-! ## Report-formatter rate computations -/

/-- The guarded `win_rate = (wins / total * 100) if total > 0 else 0` from
`print_summary` (exact rational arithmetic in place of Python floats). -/
def win_rate (s : PYStats) : ℚ :=
  if s.total > 0 then (s.wins : ℚ) / (s.total : ℚ) * 100 else 0

/-- The guarded `avg_attempts = (total_attempts / wins) if wins > 0 else 0` from
`print_summary`. -/
def avg_attempts (s : PYStats) : ℚ :=
  if s.wins > 0 then (s.total_attempts : ℚ) / (s.wins : ℚ) else 0

/-- The denominator of the unguarded percentage prints of the `__main__`
head-to-head report. -/
def h2hTotal (h : H2H) : Nat := h.hugo_wins + h.sylvain_wins + h.ties

/-! ## Derived predicates and example values used by the theorems -/

/-- The invariants that hold of every record `parse_html_files` emits. -/
def GoodRec (r : ResultRec) : Prop :=
  (r.attempts = 'X' ∨ isDigitCh r.attempts = true) ∧ r.player ≠ "" ∧
    isValidDate r.date.year r.date.month r.date.day = true

/-- The two bucket invariants of C4. -/
def statInv (s : PYStats) : Prop :=
  s.wins + s.losses = s.total ∧ distSum s = s.wins

/-- The value of the `current_player` variable after processing a list of
blocks, starting from `cp`. -/
def authorFold (cp : Option String) : List Msg → Option String
  | [] => cp
  | m :: ms => authorFold (updAuthor cp m) ms

/-- Specification-style "most recently seen author label of the same
document": the normalized label of the last block that carries one. -/
def lastFrom : List Msg → Option String
  | [] => none
  | m :: ms =>
    match lastFrom ms with
    | some s => some s
    | none => m.from_name.map normName

/-- A concrete deduplicated puzzle map for examples: puzzle 70 of 2023,
3 attempts for the first designated player, 5 for the second. -/
def exF35 : PMap := fun k pl =>
  if k = ((2023 : Nat), (70 : Nat)) ∧ pl = "Sylvain Roy" then some 5
  else if k = ((2023 : Nat), (70 : Nat)) ∧ pl = "Hugo Ledoux" then some 3 else none

/-- The corresponding per-year counters: one first-player win in 2023. -/
def exH35 : Nat → H2H := fun y => if y = 2023 then H2H.mk 1 0 0 else H2H.mk 0 0 0

/-! ## Matcher lemmas -/

theorem dropLit_append (l r : List Char) : dropLit l (l ++ r) = some r := by
  induction l with
  | nil => rfl
  | cons c cs ih => simpa [dropLit] using ih

theorem munch_fst_mem (p : Char → Bool) :
    ∀ t : List Char, ∀ x ∈ (munch p t).1, p x = true := by
  intro t
  induction t with
  | nil => simp [munch]
  | cons c cs ih =>
    by_cases hc : p c
    · simp only [munch, hc, if_true]
      intro x hx
      rcases List.mem_cons.mp hx with h | h
      · exact h ▸ hc
      · exact ih x h
    · simp [munch, hc]

theorem munch_of_append (p : Char → Bool) (g : List Char) (x : Char) (r : List Char)
    (hg : ∀ c ∈ g, p c = true) (hx : p x = false) :
    munch p (g ++ x :: r) = (g, x :: r) := by
  induction g with
  | nil => simp [munch, hx]
  | cons c cs ih =>
    have hc : p c = true := hg c (List.mem_cons_self c cs)
    have ih' := ih (fun d hd => hg d (List.mem_cons_of_mem c hd))
    simp [munch, hc, ih']

theorem matchWordleAt_sound {t : List Char} {g : List Char} {a : Char}
    (h : matchWordleAt t = some (g, a)) :
    (a = 'X' || isDigitCh a) = true ∧ ∀ x ∈ g, (isDigitCh x || x = ',') = true := by
  unfold matchWordleAt at h
  split at h <;> try exact Option.noConfusion h
  split at h <;> try exact Option.noConfusion h
  split at h <;> try exact Option.noConfusion h
  split at h <;> try exact Option.noConfusion h
  rename_i hclass oscr v h6
  rename_i xscr r1 hdrop pscr c0 cs c rest hmunch
  injection h with h'
  injection h' with h1 h2
  subst h1
  subst h2
  refine ⟨hclass, ?_⟩
  have hmm := munch_fst_mem (fun c => isDigitCh c || c = ',') r1
  rw [hmunch] at hmm
  exact hmm

theorem searchWordle_sound :
    ∀ {t g a}, searchWordle t = some (g, a) →
      (a = 'X' || isDigitCh a) = true ∧ ∀ x ∈ g, (isDigitCh x || x = ',') = true := by
  intro t
  induction t with
  | nil => intro g a h; exact absurd h (by simp [searchWordle])
  | cons c cs ih =>
    intro g a h
    unfold searchWordle at h
    split at h
    · rename_i res hm
      injection h with h'
      subst h'
      exact matchWordleAt_sound hm
    · exact ih h

theorem matchWordleAt_mk (g : List Char) (a : Char) (rest : List Char)
    (hg : ∀ c ∈ g, (isDigitCh c || c = ',') = true) (hne : g ≠ [])
    (ha : (a = 'X' || isDigitCh a) = true) :
    matchWordleAt ("Wordle ".toList ++ (g ++ ' ' :: a :: '/' :: '6' :: rest)) = some (g, a) := by
  obtain ⟨c0, cs, rfl⟩ : ∃ c0 cs, g = c0 :: cs := by
    cases g with
    | nil => exact absurd rfl hne
    | cons c0 cs => exact ⟨c0, cs, rfl⟩
  have hsp : (fun c => isDigitCh c || c = ',') ' ' = false := by decide
  have hmunch := munch_of_append (fun c => isDigitCh c || c = ',') (c0 :: cs) ' '
    (a :: '/' :: '6' :: rest) hg hsp
  have h6 : dropLit "/6".toList ('/' :: '6' :: rest) = some rest := rfl
  simp only [matchWordleAt, dropLit_append, hmunch, ha, if_true, h6]

theorem searchWordle_mk (g : List Char) (a : Char) (rest : List Char)
    (hg : ∀ c ∈ g, (isDigitCh c || c = ',') = true) (hne : g ≠ [])
    (ha : (a = 'X' || isDigitCh a) = true) :
    searchWordle ("Wordle ".toList ++ (g ++ ' ' :: a :: '/' :: '6' :: rest)) = some (g, a) := by
  have hm := matchWordleAt_mk g a rest hg hne ha
  have hshape : "Wordle ".toList ++ (g ++ ' ' :: a :: '/' :: '6' :: rest) =
      'W' :: ("ordle ".toList ++ (g ++ ' ' :: a :: '/' :: '6' :: rest)) := rfl
  rw [hshape] at hm ⊢
  simp only [searchWordle, hm]

/-! ## Soundness of every emitted record -/

theorem msgRecord_sound {cp : Option String} {m : Msg} {r : ResultRec}
    (h : msgRecord cp m = .ok (some r)) : GoodRec r := by
  unfold msgRecord at h
  split at h
  · exact absurd h (by simp)
  · split at h
    · exact absurd h (by simp)
    · rename_i txt htxt g a hsw
      split at h
      · exact absurd h (by simp)
      · rename_i p
        split at h
        · exact absurd h (by simp)
        · rename_i hp
          split at h
          · exact absurd h (by simp)
          · rename_i n hn
            split at h
            · exact absurd h (by simp)
            · rename_i ttl httl
              split at h
              · exact absurd h (by simp)
              · rename_i httlne
                split at h
                · exact absurd h (by simp)
                · rename_i dy mo yr hdate
                  split at h
                  · rename_i hvalid
                    injection h with h'
                    injection h' with h''
                    subst h''
                    have hcls := (searchWordle_sound hsw).1
                    refine ⟨?_, hp, hvalid⟩
                    rcases Bool.or_eq_true_iff.mp hcls with h1 | h1
                    · exact Or.inl (by simpa using h1)
                    · exact Or.inr h1
                  · exact absurd h (by simp)

theorem parseDocAux_sound :
    ∀ (ms : List Msg) (cp : Option String) (acc rs : List ResultRec),
      (∀ r ∈ acc, GoodRec r) → parseDocAux cp acc ms = .ok rs → ∀ r ∈ rs, GoodRec r := by
  intro ms
  induction ms with
  | nil =>
    intro cp acc rs hacc h
    injection h with h'
    exact h' ▸ hacc
  | cons m ms ih =>
    intro cp acc rs hacc h
    unfold parseDocAux at h
    split at h
    · exact absurd h (by simp)
    · exact ih _ _ _ hacc h
    · rename_i r hr
      refine ih _ _ _ ?_ h
      intro r' hr'
      rcases List.mem_append.mp hr' with h' | h'
      · exact hacc r' h'
      · rw [List.mem_singleton.mp h']
        exact msgRecord_sound hr

theorem parseFilesAux_sound :
    ∀ (ds : List (List Msg)) (acc rs : List ResultRec),
      (∀ r ∈ acc, GoodRec r) → parseFilesAux acc ds = .ok rs → ∀ r ∈ rs, GoodRec r := by
  intro ds
  induction ds with
  | nil =>
    intro acc rs hacc h
    injection h with h'
    exact h' ▸ hacc
  | cons d ds ih =>
    intro acc rs hacc h
    unfold parseFilesAux at h
    split at h
    · exact absurd h (by simp)
    · rename_i acc' hd
      exact ih _ _ (parseDocAux_sound d none acc acc' hacc hd) h

theorem parse_sound {docs : List (List Msg)} {rs : List ResultRec}
    (h : parse_html_files docs = .ok rs) : ∀ r ∈ rs, GoodRec r :=
  parseFilesAux_sound docs [] rs (by simp) h

/-! ## Claims C1, C7, C8, C10 -/

/-- C1 (counterexample): the document body "Wordle 1 7/6" matches the
mention pattern and yields a record whose `attempts` is `'7'`, which is
neither a digit in [1,6] nor the sentinel `'X'`. -/
theorem c1_counterexample :
    parse_html_files [[⟨some "A", some "Wordle 1 7/6", some "01.01.2023 00:00:00 UTC"⟩]] =
      .ok [⟨"A", 1, '7', ⟨2023, 1, 1⟩, 2023⟩] ∧
    ¬(('7' ∈ ['1', '2', '3', '4', '5', '6']) ∨ '7' = 'X') :=
  ⟨rfl, by decide⟩

/-- C1 (amended): every record emitted by `parse_html_files` has an
`attempts` value that is either the sentinel `'X'` or a single decimal
digit (0–9); the regex class `[X\d]` enforces no more than that. -/
theorem c1_attempts_digit_or_X (docs : List (List Msg)) (rs : List ResultRec)
    (h : parse_html_files docs = .ok rs) :
    ∀ r ∈ rs, r.attempts = 'X' ∨ isDigitCh r.attempts = true :=
  fun r hr => (parse_sound h r hr).1

/-- C1 witness: the amended claim at a concrete parsed document. -/
theorem c1_attempts_digit_or_X_witness :
    ('3' : Char) = 'X' ∨ isDigitCh '3' = true :=
  c1_attempts_digit_or_X [[⟨some "A", some "Wordle 798 3/6", some "26.08.2023 08:38:51 UTC+01:00"⟩]]
    [⟨"A", 798, '3', ⟨2023, 8, 26⟩, 2023⟩] rfl
    ⟨"A", 798, '3', ⟨2023, 8, 26⟩, 2023⟩ (List.mem_singleton.mpr rfl)

/-- C7 (counterexample): the body "Wordle 0 3/6" matches the mention
pattern and yields a record with `puzzle_num = 0`, violating
`puzzleNumber >= 1`. -/
theorem c7_counterexample :
    parse_html_files [[⟨some "A", some "Wordle 0 3/6", some "01.01.2023 00:00:00 UTC"⟩]] =
      .ok [⟨"A", 0, '3', ⟨2023, 1, 1⟩, 2023⟩] ∧ ¬(1 ≤ (0 : Nat)) :=
  ⟨rfl, by decide⟩

/-- C7 (amended): every record emitted by `parse_html_files` has a
nonnegative `puzzle_num` (digits parse to a natural number, but 0 is
possible), a non-empty `player`, and a calendar-valid `date`. -/
theorem c7_player_date_valid (docs : List (List Msg)) (rs : List ResultRec)
    (h : parse_html_files docs = .ok rs) :
    ∀ r ∈ rs, 0 ≤ r.puzzle_num ∧ r.player ≠ "" ∧
      isValidDate r.date.year r.date.month r.date.day = true :=
  fun r hr => ⟨Nat.zero_le _, (parse_sound h r hr).2.1, (parse_sound h r hr).2.2⟩

/-- C7 witness: the amended claim at a concrete parsed document. -/
theorem c7_player_date_valid_witness :
    0 ≤ (798 : Nat) ∧ ("A" : String) ≠ "" ∧ isValidDate 2023 8 26 = true :=
  c7_player_date_valid
    [[⟨some "A", some "Wordle 798 3/6", some "26.08.2023 08:38:51 UTC+01:00"⟩]]
    [⟨"A", 798, '3', ⟨2023, 8, 26⟩, 2023⟩] rfl
    ⟨"A", 798, '3', ⟨2023, 8, 26⟩, 2023⟩ (List.mem_singleton.mpr rfl)

/-- C8: a mention whose puzzle number is written with thousands-separator
commas and the equivalent mention with the commas removed both match, and
both produce the same extracted puzzle number, because the separators are
stripped before `int` conversion. -/
theorem c8_grouping_insensitive (g d : List Char) (a : Char) (rest : List Char)
    (hg : ∀ c ∈ g, (isDigitCh c || c = ',') = true)
    (hd : stripCommas g = d) (hne : d ≠ [])
    (ha : (a = 'X' || isDigitCh a) = true) :
    searchWordle ("Wordle ".toList ++ (g ++ ' ' :: a :: '/' :: '6' :: rest)) = some (g, a) ∧
    searchWordle ("Wordle ".toList ++ (d ++ ' ' :: a :: '/' :: '6' :: rest)) = some (d, a) ∧
    parsePuzzleNum g = some (digitsToNat d) ∧ parsePuzzleNum d = some (digitsToNat d) := by
  subst hd
  have hgne : g ≠ [] := by
    intro hg0
    apply hne
    rw [hg0]
    rfl
  have hdmem : ∀ c ∈ stripCommas g, (isDigitCh c || c = ',') = true := by
    intro c hc
    exact hg c (List.mem_filter.mp hc).1
  have hdnocomma : ∀ c ∈ stripCommas g, decide (c ≠ ',') = true := by
    intro c hc
    exact (List.mem_filter.mp hc).2
  have hstripd : stripCommas (stripCommas g) = stripCommas g :=
    List.filter_eq_self.mpr hdnocomma
  refine ⟨searchWordle_mk g a rest hg hgne ha,
    searchWordle_mk (stripCommas g) a rest hdmem hne ha, ?_, ?_⟩
  · unfold parsePuzzleNum
    simp [hne]
  · unfold parsePuzzleNum
    rw [hstripd]
    simp [hne]

/-- C8 witness: "Wordle 1,292 3/6" and "Wordle 1292 3/6" extract the same
puzzle number. -/
theorem c8_grouping_insensitive_witness :
    searchWordle ("Wordle ".toList ++
        (['1', ',', '2', '9', '2'] ++ ' ' :: '3' :: '/' :: '6' :: [])) =
      some (['1', ',', '2', '9', '2'], '3') ∧
    searchWordle ("Wordle ".toList ++ (['1', '2', '9', '2'] ++ ' ' :: '3' :: '/' :: '6' :: [])) =
      some (['1', '2', '9', '2'], '3') ∧
    parsePuzzleNum ['1', ',', '2', '9', '2'] = some (digitsToNat ['1', '2', '9', '2']) ∧
    parsePuzzleNum ['1', '2', '9', '2'] = some (digitsToNat ['1', '2', '9', '2']) :=
  c8_grouping_insensitive ['1', ',', '2', '9', '2'] ['1', '2', '9', '2'] '3' []
    (by decide) (by decide) (by decide) (by decide)

/-! ## Claims C4 and C5: per-(player, year) aggregation -/

theorem pyIntChar_lt_10 {c : Char} {a : Nat} (h : pyIntChar c = some a) : a < 10 := by
  unfold pyIntChar isDigitCh at h
  split at h
  · rename_i hd
    injection h with h'
    subst h'
    have h1 := (Bool.and_eq_true_iff.mp hd).1
    have h2 := (Bool.and_eq_true_iff.mp hd).2
    have h1' := of_decide_eq_true h1
    have h2' := of_decide_eq_true h2
    omega
  · exact Option.noConfusion h

theorem winMod_winMod (a b : Nat) (s : PYStats) :
    winMod a (winMod b s) = winMod b (winMod a s) := by
  unfold winMod
  ext n
  · rfl
  · rfl
  · rfl
  · show (if n = a then (if n = b then s.attempts_dist n + 1 else s.attempts_dist n) + 1
        else if n = b then s.attempts_dist n + 1 else s.attempts_dist n) =
      (if n = b then (if n = a then s.attempts_dist n + 1 else s.attempts_dist n) + 1
        else if n = a then s.attempts_dist n + 1 else s.attempts_dist n)
    by_cases hna : n = a <;> by_cases hnb : n = b <;> by_cases hab : a = b <;>
      simp_all
  · show s.total_attempts + b + a = s.total_attempts + a + b
    omega

theorem updPY_comm (m : StatsMap) (p1 : String) (y1 : Nat) (g1 : PYStats → PYStats)
    (p2 : String) (y2 : Nat) (g2 : PYStats → PYStats)
    (hg : ∀ s, g1 (g2 s) = g2 (g1 s)) :
    updPY (updPY m p1 y1 g1) p2 y2 g2 = updPY (updPY m p2 y2 g2) p1 y1 g1 := by
  funext p y
  simp only [updPY]
  split_ifs with h1 h2 <;> first | rfl | exact (hg _).symm

theorem statStep_bind_comm (m : StatsMap) (a b : ResultRec) :
    (statStep m a).bind (fun m1 => statStep m1 b) =
      (statStep m b).bind (fun m1 => statStep m1 a) := by
  by_cases hax : a.attempts = 'X' <;> by_cases hbx : b.attempts = 'X'
  · simp only [statStep, hax, hbx, if_true, reduceIte, Option.some_bind]
    exact congrArg some (updPY_comm m a.player a.year lossMod b.player b.year lossMod
      (fun s => rfl))
  · simp only [statStep, hax, hbx, if_true, if_false, reduceIte]
    cases hbi : pyIntChar b.attempts with
    | none => simp
    | some vb =>
      simp only [Option.some_bind]
      exact congrArg some (updPY_comm m a.player a.year lossMod b.player b.year (winMod vb)
        (fun s => rfl))
  · simp only [statStep, hax, hbx, if_true, if_false, reduceIte]
    cases hai : pyIntChar a.attempts with
    | none => simp
    | some va =>
      simp only [Option.some_bind]
      exact congrArg some (updPY_comm m a.player a.year (winMod va) b.player b.year lossMod
        (fun s => rfl))
  · simp only [statStep, hax, hbx, if_false, reduceIte]
    cases hai : pyIntChar a.attempts with
    | none =>
      cases hbi : pyIntChar b.attempts with
      | none => simp
      | some vb => simp [hai]
    | some va =>
      cases hbi : pyIntChar b.attempts with
      | none => simp [hbi]
      | some vb =>
        simp only [Option.some_bind]
        exact congrArg some (updPY_comm m a.player a.year (winMod va) b.player b.year (winMod vb)
          (winMod_winMod va vb))

theorem calcStats_perm {l l' : List ResultRec} (h : l.Perm l') :
    ∀ m, calcStats m l = calcStats m l' := by
  induction h with
  | nil => intro m; rfl
  | cons x _ ih =>
    intro m
    show (statStep m x).bind _ = (statStep m x).bind _
    cases hs : statStep m x with
    | none => rfl
    | some m1 => exact ih m1
  | swap x y l =>
    intro m
    show (statStep m y).bind (fun m1 => (statStep m1 x).bind (fun m2 => calcStats m2 l)) =
      (statStep m x).bind (fun m1 => (statStep m1 y).bind (fun m2 => calcStats m2 l))
    rw [← Option.bind_assoc, ← Option.bind_assoc, statStep_bind_comm]
  | trans _ _ ih1 ih2 =>
    intro m
    exact (ih1 m).trans (ih2 m)

/-- C5: `calculate_statistics` is order-independent — any permutation of
the record sequence produces the identical statistics map (including the
identical error behavior on malformed records). -/
theorem c5_order_independent (l l' : List ResultRec) (h : l.Perm l') :
    calculate_statistics l = calculate_statistics l' :=
  calcStats_perm h _

/-- C5 witness: swapping two concrete records leaves the statistics map
unchanged. -/
theorem c5_order_independent_witness :
    calculate_statistics [⟨"A", 1, '3', ⟨2023, 1, 1⟩, 2023⟩, ⟨"B", 1, 'X', ⟨2023, 1, 1⟩, 2023⟩] =
      calculate_statistics [⟨"B", 1, 'X', ⟨2023, 1, 1⟩, 2023⟩, ⟨"A", 1, '3', ⟨2023, 1, 1⟩, 2023⟩] :=
  c5_order_independent _ _
    (List.Perm.swap (⟨"B", 1, 'X', ⟨2023, 1, 1⟩, 2023⟩ : ResultRec)
      (⟨"A", 1, '3', ⟨2023, 1, 1⟩, 2023⟩ : ResultRec) [])

theorem statInv_init : statInv initPY :=
  ⟨rfl, by simp [statInv, distSum, initPY]⟩

theorem distSum_winMod (s : PYStats) (a : Nat) (ha : a < 10) :
    distSum (winMod a s) = distSum s + 1 := by
  unfold distSum winMod
  have hsplit : ∀ n ∈ Finset.range 10,
      (if n = a then s.attempts_dist n + 1 else s.attempts_dist n) =
        s.attempts_dist n + (if n = a then 1 else 0) := by
    intro n _
    split <;> simp
  rw [Finset.sum_congr rfl hsplit, Finset.sum_add_distrib,
    Finset.sum_ite_eq' (Finset.range 10) a (fun _ => 1)]
  simp [Finset.mem_range.mpr ha]

theorem statInv_lossMod {s : PYStats} (h : statInv s) : statInv (lossMod s) := by
  obtain ⟨h1, h2⟩ := h
  refine ⟨?_, ?_⟩
  · show s.wins + (s.losses + 1) = s.total + 1
    omega
  · show distSum (lossMod s) = s.wins
    have hd : distSum (lossMod s) = distSum s := rfl
    rw [hd, h2]

theorem statInv_winMod {s : PYStats} (a : Nat) (ha : a < 10) (h : statInv s) :
    statInv (winMod a s) := by
  obtain ⟨h1, h2⟩ := h
  refine ⟨?_, ?_⟩
  · show s.wins + 1 + s.losses = s.total + 1
    omega
  · show distSum (winMod a s) = s.wins + 1
    rw [distSum_winMod s a ha, h2]

theorem statStep_inv {m m1 : StatsMap} {r : ResultRec} (h : statStep m r = some m1)
    (hm : ∀ p y, statInv (m p y)) : ∀ p y, statInv (m1 p y) := by
  unfold statStep at h
  split at h
  · injection h with h'
    subst h'
    intro p y
    simp only [updPY]
    split
    · exact statInv_lossMod (hm p y)
    · exact hm p y
  · split at h
    · exact Option.noConfusion h
    · rename_i a hai
      injection h with h'
      subst h'
      intro p y
      simp only [updPY]
      split
      · exact statInv_winMod a (pyIntChar_lt_10 hai) (hm p y)
      · exact hm p y

theorem calcStats_inv :
    ∀ (l : List ResultRec) (m m' : StatsMap),
      (∀ p y, statInv (m p y)) → calcStats m l = some m' → ∀ p y, statInv (m' p y) := by
  intro l
  induction l with
  | nil =>
    intro m m' hm h
    injection h with h'
    exact h' ▸ hm
  | cons r l ih =>
    intro m m' hm h
    rw [show calcStats m (r :: l) = (statStep m r).bind (fun m1 => calcStats m1 l) from rfl] at h
    cases hs : statStep m r with
    | none =>
      rw [hs] at h
      exact Option.noConfusion h
    | some m1 =>
      rw [hs] at h
      exact ih m1 m' (statStep_inv hs hm) h

/-- C4: in every bucket of the map `calculate_statistics` produces,
`wins + losses = total` and the values of `attempts_dist` sum to `wins`. -/
theorem c4_bucket_invariants (l : List ResultRec) (m : StatsMap)
    (h : calculate_statistics l = some m) (p : String) (y : Nat) :
    (m p y).wins + (m p y).losses = (m p y).total ∧ distSum (m p y) = (m p y).wins :=
  calcStats_inv l (fun _ _ => initPY) m (fun _ _ => statInv_init) h p y

/-- C4 witness: the invariants at the bucket of a concrete one-record
aggregation. -/
theorem c4_bucket_invariants_witness :
    ((updPY (fun _ _ => initPY) "A" 2023 (winMod 3)) "A" 2023).wins +
        ((updPY (fun _ _ => initPY) "A" 2023 (winMod 3)) "A" 2023).losses =
      ((updPY (fun _ _ => initPY) "A" 2023 (winMod 3)) "A" 2023).total ∧
    distSum ((updPY (fun _ _ => initPY) "A" 2023 (winMod 3)) "A" 2023) =
      ((updPY (fun _ _ => initPY) "A" 2023 (winMod 3)) "A" 2023).wins :=
  c4_bucket_invariants [⟨"A", 800, '3', ⟨2023, 1, 1⟩, 2023⟩]
    (updPY (fun _ _ => initPY) "A" 2023 (winMod 3)) rfl "A" 2023

/-! ## Claims C3 and C6: head-to-head aggregation -/

theorem tallyOne_hugo (f : PMap) (st : (Nat → H2H) × List Nat) (k : Nat × Nat) (y : Nat) :
    ((tallyOne f st k).1 y).hugo_wins =
      (st.1 y).hugo_wins + (if (decide (y = k.1) && hugoAt f k) = true then 1 else 0) := by
  unfold tallyOne hugoAt
  cases hH : f k "Hugo Ledoux" with
  | none => simp
  | some hv =>
    cases hS : f k "Sylvain Roy" with
    | none => simp
    | some sv =>
      by_cases hy : y = k.1
      · by_cases h1 : hv < sv
        · simp [hy, h1]
        · by_cases h2 : sv < hv
          · simp [hy, h1, h2]
          · simp [hy, h1, h2]
      · simp [hy]

theorem tallyOne_sylvain (f : PMap) (st : (Nat → H2H) × List Nat) (k : Nat × Nat) (y : Nat) :
    ((tallyOne f st k).1 y).sylvain_wins =
      (st.1 y).sylvain_wins + (if (decide (y = k.1) && sylvainAt f k) = true then 1 else 0) := by
  unfold tallyOne sylvainAt
  cases hH : f k "Hugo Ledoux" with
  | none => simp
  | some hv =>
    cases hS : f k "Sylvain Roy" with
    | none => simp
    | some sv =>
      by_cases hy : y = k.1
      · by_cases h1 : hv < sv
        · simp [hy, h1, Nat.lt_asymm h1]
        · by_cases h2 : sv < hv
          · simp [hy, h1, h2]
          · simp [hy, h1, h2]
      · simp [hy]

theorem tallyOne_ties (f : PMap) (st : (Nat → H2H) × List Nat) (k : Nat × Nat) (y : Nat) :
    ((tallyOne f st k).1 y).ties =
      (st.1 y).ties + (if (decide (y = k.1) && tieAt f k) = true then 1 else 0) := by
  unfold tallyOne tieAt
  cases hH : f k "Hugo Ledoux" with
  | none => simp
  | some hv =>
    cases hS : f k "Sylvain Roy" with
    | none => simp
    | some sv =>
      by_cases hy : y = k.1
      · by_cases h1 : hv < sv
        · simp [hy, h1]
        · by_cases h2 : sv < hv
          · simp [hy, h1, h2]
          · simp [hy, h1, h2]
      · simp [hy]

theorem tally_counts (f : PMap) :
    ∀ (keys : List (Nat × Nat)) (st : (Nat → H2H) × List Nat) (y : Nat),
      (((keys.foldl (tallyOne f) st).1 y).hugo_wins =
          (st.1 y).hugo_wins + keys.countP (fun k => decide (y = k.1) && hugoAt f k)) ∧
      (((keys.foldl (tallyOne f) st).1 y).sylvain_wins =
          (st.1 y).sylvain_wins + keys.countP (fun k => decide (y = k.1) && sylvainAt f k)) ∧
      (((keys.foldl (tallyOne f) st).1 y).ties =
          (st.1 y).ties + keys.countP (fun k => decide (y = k.1) && tieAt f k)) := by
  intro keys
  induction keys with
  | nil => intro st y; simp
  | cons k keys ih =>
    intro st y
    obtain ⟨ih1, ih2, ih3⟩ := ih (tallyOne f st k) y
    refine ⟨?_, ?_, ?_⟩
    · rw [List.foldl_cons, ih1, tallyOne_hugo]
      simp only [List.countP_cons]
      omega
    · rw [List.foldl_cons, ih2, tallyOne_sylvain]
      simp only [List.countP_cons]
      omega
    · rw [List.foldl_cons, ih3, tallyOne_ties]
      simp only [List.countP_cons]
      omega

/-- C3: the sentinel maps to the numeric value 7, which exceeds every
valid attempts count 1..6; and in the head-to-head tally, every
(year, puzzle) entry with values for both designated players contributes
one first-player win when its value is strictly lower, one second-player
win when strictly higher, and one tie when equal — entries missing either
player contribute to no counter.  (In particular a sentinel record, value
7, loses to a 6-attempts record.) -/
theorem c3_h2h_comparison :
    attemptsValOf 'X' = some 7 ∧ (∀ n, 1 ≤ n → n ≤ 6 → n < 7) ∧
    (∀ (l : List ResultRec) (f : PMap) (keys : List (Nat × Nat))
        (hys : (Nat → H2H) × List Nat),
      buildPuzzles (fun _ _ => none, []) l = some (f, keys) →
      calculate_head_to_head l = some hys →
      ∀ y, ((hys.1 y).hugo_wins = keys.countP (fun k => decide (y = k.1) && hugoAt f k)) ∧
        ((hys.1 y).sylvain_wins = keys.countP (fun k => decide (y = k.1) && sylvainAt f k)) ∧
        ((hys.1 y).ties = keys.countP (fun k => decide (y = k.1) && tieAt f k))) := by
  refine ⟨rfl, ?_, ?_⟩
  · intro n h1 h6
    omega
  · intro l f keys hys hb hc y
    unfold calculate_head_to_head at hc
    rw [hb, Option.map_some'] at hc
    injection hc with hc'
    subst hc'
    obtain ⟨t1, t2, t3⟩ := tally_counts f keys (fun _ => H2H.mk 0 0 0, []) y
    exact ⟨by simpa using t1, by simpa using t2, by simpa using t3⟩

/-- C3 witness: with a sentinel record for the first player and a
6-attempts record for the second player on the same puzzle and year,
the second player takes the single head-to-head win. -/
theorem c3_h2h_comparison_witness :
    (((fun y => if y = 2023 then H2H.mk 0 1 0 else H2H.mk 0 0 0) 2023).hugo_wins =
        [((2023 : Nat), (1 : Nat))].countP (fun k => decide (2023 = k.1) &&
          hugoAt (fun k pl => if k = ((2023 : Nat), (1 : Nat)) ∧ pl = "Sylvain Roy" then some 6
            else if k = ((2023 : Nat), (1 : Nat)) ∧ pl = "Hugo Ledoux" then some 7 else none) k)) ∧
    (((fun y => if y = 2023 then H2H.mk 0 1 0 else H2H.mk 0 0 0) 2023).sylvain_wins =
        [((2023 : Nat), (1 : Nat))].countP (fun k => decide (2023 = k.1) &&
          sylvainAt (fun k pl => if k = ((2023 : Nat), (1 : Nat)) ∧ pl = "Sylvain Roy" then some 6
            else if k = ((2023 : Nat), (1 : Nat)) ∧ pl = "Hugo Ledoux" then some 7 else none) k)) ∧
    (((fun y => if y = 2023 then H2H.mk 0 1 0 else H2H.mk 0 0 0) 2023).ties =
        [((2023 : Nat), (1 : Nat))].countP (fun k => decide (2023 = k.1) &&
          tieAt (fun k pl => if k = ((2023 : Nat), (1 : Nat)) ∧ pl = "Sylvain Roy" then some 6
            else if k = ((2023 : Nat), (1 : Nat)) ∧ pl = "Hugo Ledoux" then some 7 else none) k)) :=
  c3_h2h_comparison.2.2
    [⟨"Hugo Ledoux", 1, 'X', ⟨2023, 1, 1⟩, 2023⟩, ⟨"Sylvain Roy", 1, '6', ⟨2023, 1, 1⟩, 2023⟩]
    (fun k pl => if k = ((2023 : Nat), (1 : Nat)) ∧ pl = "Sylvain Roy" then some 6
      else if k = ((2023 : Nat), (1 : Nat)) ∧ pl = "Hugo Ledoux" then some 7 else none)
    [((2023 : Nat), (1 : Nat))]
    ((fun y => if y = 2023 then H2H.mk 0 1 0 else H2H.mk 0 0 0), [2023])
    rfl rfl 2023

theorem countP_three (f : PMap) (y : Nat) :
    ∀ keys : List (Nat × Nat),
      keys.countP (fun k => decide (y = k.1) && hugoAt f k) +
        keys.countP (fun k => decide (y = k.1) && sylvainAt f k) +
        keys.countP (fun k => decide (y = k.1) && tieAt f k) =
      keys.countP (fun k => decide (y = k.1) && bothAt f k) := by
  intro keys
  induction keys with
  | nil => rfl
  | cons k keys ih =>
    simp only [List.countP_cons]
    have hpt : (if (decide (y = k.1) && hugoAt f k) = true then 1 else 0) +
        (if (decide (y = k.1) && sylvainAt f k) = true then 1 else 0) +
        (if (decide (y = k.1) && tieAt f k) = true then 1 else 0) =
        (if (decide (y = k.1) && bothAt f k) = true then (1 : Nat) else 0) := by
      unfold hugoAt sylvainAt tieAt bothAt
      cases hH : f k "Hugo Ledoux" with
      | none => simp
      | some hv =>
        cases hS : f k "Sylvain Roy" with
        | none => simp
        | some sv =>
          simp only [Option.isSome_some, Bool.and_true, Bool.and_eq_true, decide_eq_true_eq]
          split_ifs <;> omega
    omega

theorem buildPuzzles_keys :
    ∀ (l : List ResultRec) (st : PMap × List (Nat × Nat)) (f : PMap)
      (keys : List (Nat × Nat)),
      buildPuzzles st l = some (f, keys) →
      (st.2.Nodup → keys.Nodup) ∧
      (∀ k, k ∈ keys ↔ k ∈ st.2 ∨ ∃ r ∈ l, (r.year, r.puzzle_num) = k) := by
  intro l
  induction l with
  | nil =>
    intro st f keys h
    injection h with h'
    obtain ⟨hf, hk⟩ : f = st.1 ∧ keys = st.2 := by rw [h']; exact ⟨rfl, rfl⟩
    subst hf
    subst hk
    exact ⟨fun hn => hn, by simp⟩
  | cons r l ih =>
    intro st f keys h
    rw [show buildPuzzles st (r :: l) = (pmStep st r).bind (fun st' => buildPuzzles st' l)
      from rfl] at h
    cases hs : pmStep st r with
    | none =>
      rw [hs] at h
      exact Option.noConfusion h
    | some st' =>
      rw [hs] at h
      obtain ⟨ihnd, ihmem⟩ := ih st' f keys h
      unfold pmStep at hs
      cases hv : attemptsValOf r.attempts with
      | none =>
        rw [hv] at hs
        exact Option.noConfusion hs
      | some v =>
        rw [hv] at hs
        injection hs with hs'
        have hsnd : st'.2 = if (r.year, r.puzzle_num) ∈ st.2 then st.2
            else st.2 ++ [(r.year, r.puzzle_num)] := by
          rw [← hs']
        constructor
        · intro hnd
          apply ihnd
          rw [hsnd]
          by_cases hmem : (r.year, r.puzzle_num) ∈ st.2
          · simpa [hmem] using hnd
          · simp only [hmem, if_false]
            simp [List.nodup_append, hnd, hmem]
        · intro k
          rw [ihmem k, hsnd]
          by_cases hmem : (r.year, r.puzzle_num) ∈ st.2
          · rw [if_pos hmem]
            constructor
            · rintro (hk | ⟨r', hr', hk⟩)
              · exact Or.inl hk
              · exact Or.inr ⟨r', List.mem_cons_of_mem r hr', hk⟩
            · rintro (hk | ⟨r', hr', hk⟩)
              · exact Or.inl hk
              · rcases List.mem_cons.mp hr' with h' | h'
                · subst h'
                  exact Or.inl (hk ▸ hmem)
                · exact Or.inr ⟨r', h', hk⟩
          · rw [if_neg hmem]
            constructor
            · rintro (hk | ⟨r', hr', hk⟩)
              · rcases List.mem_append.mp hk with h' | h'
                · exact Or.inl h'
                · exact Or.inr ⟨r, List.mem_cons_self r l, (List.mem_singleton.mp h').symm⟩
              · exact Or.inr ⟨r', List.mem_cons_of_mem r hr', hk⟩
            · rintro (hk | ⟨r', hr', hk⟩)
              · exact Or.inl (List.mem_append.mpr (Or.inl hk))
              · rcases List.mem_cons.mp hr' with h' | h'
                · subst h'
                  exact Or.inl (List.mem_append.mpr (Or.inr (List.mem_singleton.mpr hk.symm)))
                · exact Or.inr ⟨r', h', hk⟩

/-- C6: when `calculate_head_to_head` succeeds, the recorded
(year, puzzle) keys are exactly the distinct (year, puzzleNumber) pairs
occurring in the records (one key per pair, later duplicates only
overwriting the per-player value), and for every year the three counters
sum to the number of those keys of that year for which both designated
players have a value in the deduplicated map. -/
theorem c6_h2h_counts_shared_entries :
    ∀ (l : List ResultRec) (f : PMap) (keys : List (Nat × Nat))
      (hys : (Nat → H2H) × List Nat),
      buildPuzzles (fun _ _ => none, []) l = some (f, keys) →
      calculate_head_to_head l = some hys →
      keys.Nodup ∧
      (∀ k, k ∈ keys ↔ ∃ r ∈ l, (r.year, r.puzzle_num) = k) ∧
      (∀ y, (hys.1 y).hugo_wins + (hys.1 y).sylvain_wins + (hys.1 y).ties =
        keys.countP (fun k => decide (y = k.1) && bothAt f k)) := by
  intro l f keys hys hb hc
  obtain ⟨hnd, hmem⟩ := buildPuzzles_keys l (fun _ _ => none, []) f keys hb
  refine ⟨hnd (by simp), ?_, ?_⟩
  · intro k
    rw [hmem k]
    simp
  · intro y
    unfold calculate_head_to_head at hc
    rw [hb, Option.map_some'] at hc
    injection hc with hc'
    subst hc'
    obtain ⟨t1, t2, t3⟩ := tally_counts f keys (fun _ => H2H.mk 0 0 0, []) y
    have t1' : ((keys.foldl (tallyOne f) (fun _ => H2H.mk 0 0 0, [])).1 y).hugo_wins =
        keys.countP (fun k => decide (y = k.1) && hugoAt f k) := by simpa using t1
    have t2' : ((keys.foldl (tallyOne f) (fun _ => H2H.mk 0 0 0, [])).1 y).sylvain_wins =
        keys.countP (fun k => decide (y = k.1) && sylvainAt f k) := by simpa using t2
    have t3' : ((keys.foldl (tallyOne f) (fun _ => H2H.mk 0 0 0, [])).1 y).ties =
        keys.countP (fun k => decide (y = k.1) && tieAt f k) := by simpa using t3
    show ((keys.foldl (tallyOne f) (fun _ => H2H.mk 0 0 0, [])).1 y).hugo_wins +
        ((keys.foldl (tallyOne f) (fun _ => H2H.mk 0 0 0, [])).1 y).sylvain_wins +
        ((keys.foldl (tallyOne f) (fun _ => H2H.mk 0 0 0, [])).1 y).ties =
      keys.countP (fun k => decide (y = k.1) && bothAt f k)
    rw [t1', t2', t3']
    exact countP_three f y keys

/-- C6 witness: a year with one shared puzzle (3 vs 5 attempts) has
counters summing to the one shared entry. -/
theorem c6_h2h_counts_shared_entries_witness :
    [((2023 : Nat), (70 : Nat))].Nodup ∧
    (∀ k, k ∈ [((2023 : Nat), (70 : Nat))] ↔
      ∃ r ∈ [(⟨"Hugo Ledoux", 70, '3', ⟨2023, 2, 1⟩, 2023⟩ : ResultRec),
        ⟨"Sylvain Roy", 70, '5', ⟨2023, 2, 1⟩, 2023⟩], (r.year, r.puzzle_num) = k) ∧
    (∀ y, ((exH35, [(2023 : Nat)]).1 y).hugo_wins + ((exH35, [(2023 : Nat)]).1 y).sylvain_wins +
        ((exH35, [(2023 : Nat)]).1 y).ties =
      [((2023 : Nat), (70 : Nat))].countP (fun k => decide (y = k.1) && bothAt exF35 k)) :=
  c6_h2h_counts_shared_entries
    [⟨"Hugo Ledoux", 70, '3', ⟨2023, 2, 1⟩, 2023⟩, ⟨"Sylvain Roy", 70, '5', ⟨2023, 2, 1⟩, 2023⟩]
    exF35 [((2023 : Nat), (70 : Nat))] (exH35, [(2023 : Nat)]) rfl rfl

/-! ## Claim C2: division guards -/

theorem tallyOne_years (f : PMap) (st : (Nat → H2H) × List Nat) (k : Nat × Nat)
    (hst : ∀ y ∈ st.2, 1 ≤ h2hTotal (st.1 y)) :
    ∀ y ∈ (tallyOne f st k).2, 1 ≤ h2hTotal ((tallyOne f st k).1 y) := by
  unfold tallyOne
  cases hH : f k "Hugo Ledoux" with
  | none => exact hst
  | some hv =>
    cases hS : f k "Sylvain Roy" with
    | none => exact hst
    | some sv =>
      intro y hy
      show 1 ≤ h2hTotal (if y = k.1 then
          (if hv < sv then { st.1 y with hugo_wins := (st.1 y).hugo_wins + 1 }
           else if sv < hv then { st.1 y with sylvain_wins := (st.1 y).sylvain_wins + 1 }
           else { st.1 y with ties := (st.1 y).ties + 1 })
        else st.1 y)
      by_cases hyk : y = k.1
      · rw [if_pos hyk]
        split_ifs with h1 h2 <;> (dsimp only [h2hTotal]; omega)
      · rw [if_neg hyk]
        apply hst
        by_cases hmem : k.1 ∈ st.2
        · simpa [hmem] using hy
        · simp only [hmem, if_false] at hy
          rcases List.mem_append.mp hy with h' | h'
          · exact h'
          · exact absurd (List.mem_singleton.mp h') hyk

theorem tally_years (f : PMap) :
    ∀ (keys : List (Nat × Nat)) (st : (Nat → H2H) × List Nat),
      (∀ y ∈ st.2, 1 ≤ h2hTotal (st.1 y)) →
      ∀ y ∈ (keys.foldl (tallyOne f) st).2, 1 ≤ h2hTotal ((keys.foldl (tallyOne f) st).1 y) := by
  intro keys
  induction keys with
  | nil => intro st hst; exact hst
  | cons k keys ih =>
    intro st hst
    rw [List.foldl_cons]
    exact ih (tallyOne f st k) (tallyOne_years f st k hst)

/-- C2: every rate with a possibly-zero denominator is guarded — the win
rate of a zero-game bucket and the mean attempts of a zero-win bucket are
the defined value 0 rather than a division error, and every year that
appears in the head-to-head output has at least one counted game, so the
unguarded percentage prints of the `__main__` report never divide by
zero (a year with no head-to-head games is simply absent). -/
theorem c2_division_guards :
    (∀ s : PYStats, s.total = 0 → win_rate s = 0) ∧
    (∀ s : PYStats, s.wins = 0 → avg_attempts s = 0) ∧
    (∀ (l : List ResultRec) (hys : (Nat → H2H) × List Nat),
      calculate_head_to_head l = some hys → ∀ y ∈ hys.2, 1 ≤ h2hTotal (hys.1 y)) := by
  refine ⟨?_, ?_, ?_⟩
  · intro s h
    simp [win_rate, h]
  · intro s h
    simp [avg_attempts, h]
  · intro l hys hc
    unfold calculate_head_to_head at hc
    cases hb : buildPuzzles (fun _ _ => none, []) l with
    | none =>
      rw [hb] at hc
      exact Option.noConfusion hc
    | some st =>
      rw [hb, Option.map_some'] at hc
      injection hc with hc'
      subst hc'
      exact tally_years st.1 st.2 (fun _ => H2H.mk 0 0 0, []) (by simp)

/-- C2 witness: the guards at concrete values, and a concrete
head-to-head output whose only year has a positive denominator. -/
theorem c2_division_guards_witness :
    win_rate initPY = 0 ∧ avg_attempts initPY = 0 ∧
    1 ≤ h2hTotal (((fun y => if y = 2024 then H2H.mk 0 1 0 else H2H.mk 0 0 0),
      [(2024 : Nat)]).1 2024) :=
  ⟨c2_division_guards.1 initPY rfl, c2_division_guards.2.1 initPY rfl,
   c2_division_guards.2.2
    [⟨"Hugo Ledoux", 9, 'X', ⟨2024, 1, 1⟩, 2024⟩, ⟨"Sylvain Roy", 9, '6', ⟨2024, 1, 1⟩, 2024⟩]
    ((fun y => if y = 2024 then H2H.mk 0 1 0 else H2H.mk 0 0 0), [(2024 : Nat)])
    rfl 2024 (List.mem_singleton.mpr rfl)⟩

/-! ## Claim C9: sticky author attribution -/

theorem authorFold_eq_lastFrom :
    ∀ (ms : List Msg) (cp : Option String),
      authorFold cp ms =
        match lastFrom ms with
        | some s => some s
        | none => cp := by
  intro ms
  induction ms with
  | nil => intro cp; rfl
  | cons m ms ih =>
    intro cp
    show authorFold (updAuthor cp m) ms = _
    rw [ih]
    cases hl : lastFrom ms with
    | some s => simp [lastFrom, hl]
    | none =>
      cases hf : m.from_name with
      | none => simp [lastFrom, hl, hf, updAuthor]
      | some nm => simp [lastFrom, hl, hf, updAuthor]

theorem parseDocAux_append_single (m : Msg) :
    ∀ (ms : List Msg) (cp : Option String) (acc : List ResultRec),
      parseDocAux cp acc (ms ++ [m]) =
        match parseDocAux cp acc ms with
        | .error e => .error e
        | .ok rs => (msgRecord (updAuthor (authorFold cp ms) m) m).map
            (fun o => rs ++ o.toList) := by
  intro ms
  induction ms with
  | nil =>
    intro cp acc
    show parseDocAux cp acc [m] = _
    unfold parseDocAux
    cases hm : msgRecord (updAuthor cp m) m with
    | error e => simp [Except.map, authorFold, hm]
    | ok o =>
      cases o with
      | none => simp [parseDocAux, Except.map, authorFold, hm]
      | some r => simp [parseDocAux, Except.map, authorFold, hm]
  | cons m0 ms ih =>
    intro cp acc
    show parseDocAux cp acc (m0 :: (ms ++ [m])) = _
    unfold parseDocAux
    cases hm0 : msgRecord (updAuthor cp m0) m0 with
    | error e => rfl
    | ok o =>
      cases o with
      | none => exact ih (updAuthor cp m0) acc
      | some r => exact ih (updAuthor cp m0) (acc ++ [r])

theorem parseDocAux_acc :
    ∀ (ms : List Msg) (cp : Option String) (acc : List ResultRec),
      parseDocAux cp acc ms = (parseDocAux cp [] ms).map (fun t => acc ++ t) := by
  intro ms
  induction ms with
  | nil => intro cp acc; simp [parseDocAux, Except.map]
  | cons m ms ih =>
    intro cp acc
    unfold parseDocAux
    cases hm : msgRecord (updAuthor cp m) m with
    | error e => rfl
    | ok o =>
      cases o with
      | none => exact ih (updAuthor cp m) acc
      | some r =>
        show parseDocAux (updAuthor cp m) (acc ++ [r]) ms =
          Except.map (fun t => acc ++ t) (parseDocAux (updAuthor cp m) ([] ++ [r]) ms)
        rw [ih (updAuthor cp m) (acc ++ [r]), ih (updAuthor cp m) ([] ++ [r])]
        cases parseDocAux (updAuthor cp m) [] ms with
        | error e => rfl
        | ok t => simp [Except.map]

theorem parseFilesAux_append_single (d : List Msg) :
    ∀ (ds : List (List Msg)) (acc : List ResultRec),
      parseFilesAux acc (ds ++ [d]) =
        match parseFilesAux acc ds with
        | .error e => .error e
        | .ok rs => parseDocAux none rs d := by
  intro ds
  induction ds with
  | nil =>
    intro acc
    show parseFilesAux acc [d] = parseDocAux none acc d
    unfold parseFilesAux
    cases hd : parseDocAux none acc d with
    | error e => rfl
    | ok acc' => rfl
  | cons d0 ds ih =>
    intro acc
    show parseFilesAux acc (d0 :: (ds ++ [d])) = _
    unfold parseFilesAux
    cases hd0 : parseDocAux none acc d0 with
    | error e => rfl
    | ok acc' => exact ih acc'

theorem msgRecord_of_not_truthy {cp : Option String} (m : Msg)
    (h : truthy cp = false) : msgRecord cp m = .ok none := by
  cases cp with
  | none =>
    unfold msgRecord
    split
    · rfl
    · split
      · rfl
      · rfl
  | some p =>
    have hp : p = "" := by
      by_contra hp0
      simp [truthy, hp0] at h
    subst hp
    unfold msgRecord
    split
    · rfl
    · split
      · rfl
      · rfl

/-- C9: author attribution is sticky and per-document.  (1) A block with
no author label appended to a document is processed with the most
recently seen (normalized) author label of that document.  (2) A further
document is parsed independently of the authors of the previous ones:
its records are exactly those of a fresh parse, appended to the earlier
results.  (3) A block with no author label, in a document whose earlier
blocks give no resolvable author, contributes no record and raises no
error — whatever its body. -/
theorem c9_sticky_author :
    (∀ (msgs : List Msg) (rs : List ResultRec) (m : Msg),
      parseDoc msgs = .ok rs → m.from_name = none →
      parseDoc (msgs ++ [m]) = (msgRecord (lastFrom msgs) m).map (fun o => rs ++ o.toList)) ∧
    (∀ (docs : List (List Msg)) (rs : List ResultRec) (d : List Msg) (rd : List ResultRec),
      parse_html_files docs = .ok rs → parseDoc d = .ok rd →
      parse_html_files (docs ++ [d]) = .ok (rs ++ rd)) ∧
    (∀ (msgs : List Msg) (rs : List ResultRec) (m : Msg),
      parseDoc msgs = .ok rs → m.from_name = none → truthy (lastFrom msgs) = false →
      parseDoc (msgs ++ [m]) = .ok rs) := by
  have hlast : ∀ msgs : List Msg, authorFold none msgs = lastFrom msgs := by
    intro msgs
    rw [authorFold_eq_lastFrom]
    cases lastFrom msgs with
    | none => rfl
    | some s => rfl
  have part1 : ∀ (msgs : List Msg) (rs : List ResultRec) (m : Msg),
      parseDoc msgs = .ok rs → m.from_name = none →
      parseDoc (msgs ++ [m]) = (msgRecord (lastFrom msgs) m).map (fun o => rs ++ o.toList) := by
    intro msgs rs m hok hnone
    unfold parseDoc at hok ⊢
    rw [parseDocAux_append_single, hok]
    show (msgRecord (updAuthor (authorFold none msgs) m) m).map (fun o => rs ++ o.toList) = _
    rw [show updAuthor (authorFold none msgs) m = authorFold none msgs from by
      simp [updAuthor, hnone]]
    rw [hlast]
  refine ⟨part1, ?_, ?_⟩
  · intro docs rs d rd hdocs hd
    unfold parse_html_files at hdocs ⊢
    rw [parseFilesAux_append_single, hdocs]
    show parseDocAux none rs d = .ok (rs ++ rd)
    rw [parseDocAux_acc]
    unfold parseDoc at hd
    rw [hd]
    rfl
  · intro msgs rs m hok hnone hfalse
    rw [part1 msgs rs m hok hnone, msgRecord_of_not_truthy m hfalse]
    simp [Except.map]

/-- C9 witness: (1) a label-free block after an "A"-labelled block is
attributed to "A"; (2) a second document starts with no author; (3) a
mention in a document with no author yields no record and no error. -/
theorem c9_sticky_author_witness :
    parseDoc ([⟨some "A", none, none⟩] ++
        [⟨none, some "Wordle 798 3/6", some "26.08.2023 08:38:51 UTC+01:00"⟩]) =
      (msgRecord (lastFrom [⟨some "A", none, none⟩])
          ⟨none, some "Wordle 798 3/6", some "26.08.2023 08:38:51 UTC+01:00"⟩).map
        (fun o => ([] : List ResultRec) ++ o.toList) ∧
    parse_html_files ([[⟨some "A", some "Wordle 1 2/6", some "01.01.2023 00:00:00 UTC"⟩]] ++
        [[⟨none, some "Wordle 1 3/6", some "01.01.2023 00:00:00 UTC"⟩]]) =
      .ok ([⟨"A", 1, '2', ⟨2023, 1, 1⟩, 2023⟩] ++ []) ∧
    parseDoc ([] ++ [⟨none, some "Wordle 798 3/6", some "26.08.2023 08:38:51 UTC+01:00"⟩]) =
      .ok [] :=
  ⟨c9_sticky_author.1 [⟨some "A", none, none⟩] []
      ⟨none, some "Wordle 798 3/6", some "26.08.2023 08:38:51 UTC+01:00"⟩ rfl rfl,
   c9_sticky_author.2.1 [[⟨some "A", some "Wordle 1 2/6", some "01.01.2023 00:00:00 UTC"⟩]]
      [⟨"A", 1, '2', ⟨2023, 1, 1⟩, 2023⟩]
      [⟨none, some "Wordle 1 3/6", some "01.01.2023 00:00:00 UTC"⟩] [] rfl rfl,
   c9_sticky_author.2.2 [] []
      ⟨none, some "Wordle 798 3/6", some "26.08.2023 08:38:51 UTC+01:00"⟩ rfl rfl rfl⟩

/-- C10: the body "Wordle , 3/6" matches the mention pattern (the puzzle
group is the bare comma), the author is known, comma-stripping leaves the
empty string, and `int("")` raises, so the whole run aborts with an error
instead of skipping the block. -/
theorem c10_comma_only_puzzle_aborts :
    searchWordle "Wordle , 3/6".toList = some ([','], '3') ∧
    stripCommas [','] = [] ∧
    parse_html_files
        [[⟨some "Hugo Ledoux", some "Wordle , 3/6", some "26.08.2023 08:38:51 UTC+01:00"⟩]] =
      .error "ValueError: invalid literal for int" :=
  ⟨rfl, rfl, rfl⟩

end WordleStats
